import Mathlib

/-!
Verification development for the JohnnyBets repository.

Part I models the odds/arbitrage engine.  The engine itself is not part of
the checked-in sources (the repository holds the web application, the
infrastructure templates and strategy documents); every definition in Part I
therefore carries a doc comment starting with `Modelled from the spec:` and
follows the specification text literally.  Probabilities are modelled as
exact rationals, timestamps as integers (seconds).

Part II embeds the credential-crypto helpers (`src/web/lib/crypto.ts`) and
the invite-code validation logic (`src/unnamed/part_010` route handler and
the signup branch of `authorize` in `src/web/lib/api.ts`).  JavaScript
strings are modelled as lists of characters; byte buffers as lists of
naturals below 256.
-/

namespace Engine

/-- Modelled from the spec: market kind discriminant
`"moneyline" | "spread" | "total"`. -/
inductive MarketKind where
  | moneyline
  | spread
  | total
deriving DecidableEq, Repr

/-- Modelled from the spec: canonical Quote schema
`Quote { source, eventId, marketKind, side, line, price, observedAt }`
with an American-odds integer price and a nullable line. -/
structure Quote where
  source : String
  eventId : String
  marketKind : MarketKind
  side : String
  line : Option ℚ
  price : ℤ
  observedAt : ℤ
deriving DecidableEq, Repr

/-- Modelled from the spec: the recognized configuration options. -/
structure Config where
  eventMatchToleranceMinutes : ℕ
  arbitrageSafetyMargin : ℚ
  quoteStalenessSeconds : ℤ
  scanIntervalSeconds : ℕ
  minSourcesPerMarket : ℕ
deriving DecidableEq, Repr

/-- Modelled from the spec: the documented defaults
(10 minutes, 0.005, 120 seconds, 30 seconds, 2 sources). -/
def defaultConfig : Config :=
  { eventMatchToleranceMinutes := 10
    arbitrageSafetyMargin := 5 / 1000
    quoteStalenessSeconds := 120
    scanIntervalSeconds := 30
    minSourcesPerMarket := 2 }

/-- Modelled from the spec: American-odds price → implied probability,
`p = 100/(price+100)` for positive prices and `p = -price/(-price+100)`
for negative prices; a price of 0 or one strictly between -99 and 99 is
outside the American-odds domain and fails with `InvalidPrice` (here:
`none`). -/
def impliedProbability (price : ℤ) : Option ℚ :=
  if price = 0 ∨ (-99 < price ∧ price < 99) then none
  else if 0 < price then some (100 / ((price : ℚ) + 100))
  else some (-(price : ℚ) / (-(price : ℚ) + 100))

/-- Modelled from the spec: `ArbitrageOpportunity { legs,
combinedImpliedProbability, guaranteedReturnRate, ... }` (the stake split is
a caller concern per the open question in the design notes and is not
modelled). -/
structure ArbitrageOpportunity where
  legs : List Quote
  combinedImpliedProbability : ℚ
  guaranteedReturnRate : ℚ
deriving DecidableEq, Repr

/-- Modelled from the spec: `MiddleOpportunity { legs, windowLow, windowHigh,
worstCaseLossRate, ... }`; the window bounds are the integer score range in
which both legs win. -/
structure MiddleOpportunity where
  legs : List Quote
  windowLow : ℤ
  windowHigh : ℤ
  worstCaseLossRate : ℚ
deriving DecidableEq, Repr

/-- Modelled from the spec: a Quote is fresh at scan time when its age does
not exceed `quoteStalenessSeconds`; "a Quote older than
`quoteStalenessSeconds` must never participate in a published opportunity". -/
def isFresh (cfg : Config) (now : ℤ) (q : Quote) : Bool :=
  now - q.observedAt ≤ cfg.quoteStalenessSeconds

/-- All unordered cross pairs of a list, each pair listed once in list
order; the detectors' exhaustive O(N²) pair scan. -/
def allPairs : List α → List (α × α)
  | [] => []
  | x :: xs => xs.map (fun y => (x, y)) ++ allPairs xs

/-- The distinct source ids appearing among a group's quotes. -/
def distinctSources (quotes : List Quote) : List String :=
  (quotes.map Quote.source).dedup

/-- Modelled from the spec: one candidate pair of the arbitrage scan.
An opportunity exists for a cross-source pair on mutually exclusive sides
exactly when the sum of implied probabilities is strictly less than
1 minus the safety margin; its guaranteed return rate is the excess of the
equal-return payout `1/(p1+p2)` over the stake. -/
def arbPairCheck (margin : ℚ) (pr : Quote × Quote) : Option ArbitrageOpportunity :=
  match impliedProbability pr.1.price, impliedProbability pr.2.price with
  | some p1, some p2 =>
      if pr.1.source ≠ pr.2.source ∧ pr.1.side ≠ pr.2.side ∧ p1 + p2 < 1 - margin then
        some { legs := [pr.1, pr.2]
               combinedImpliedProbability := p1 + p2
               guaranteedReturnRate := 1 / (p1 + p2) - 1 }
      else none
  | _, _ => none

/-- Modelled from the spec: the arbitrage detector exhaustively scans all
cross-source pairs of a MarketGroup's quotes. -/
def detectArbitrage (margin : ℚ) (quotes : List Quote) : List ArbitrageOpportunity :=
  (allPairs quotes).filterMap (arbPairCheck margin)

/-- Modelled from the spec: one candidate pair of the middle scan on a
spread/total market.  A middle window exists when the over line is strictly
below the under line; the window is the integer score range strictly between
the two lines, and the worst-case loss rate is the two legs' combined vig
`p_over + p_under - 1`, a function of implied probabilities only. -/
def middleOriented (qo qu : Quote) : Option MiddleOpportunity :=
  match qo.line, qu.line, impliedProbability qo.price, impliedProbability qu.price with
  | some lo, some lu, some po, some pu =>
      if lo < lu then
        some { legs := [qo, qu]
               windowLow := lo.floor + 1
               windowHigh := lu.ceil - 1
               worstCaseLossRate := po + pu - 1 }
      else none
  | _, _, _, _ => none

/-- Modelled from the spec: orient a candidate middle pair as (over leg,
under leg); only cross-source spread/total pairs on opposite sides
qualify. -/
def middlePairCheck (pr : Quote × Quote) : Option MiddleOpportunity :=
  if pr.1.source ≠ pr.2.source ∧ pr.1.marketKind ≠ MarketKind.moneyline then
    if pr.1.side = "over" ∧ pr.2.side = "under" then middleOriented pr.1 pr.2
    else if pr.1.side = "under" ∧ pr.2.side = "over" then middleOriented pr.2 pr.1
    else none
  else none

/-- Modelled from the spec: the middle detector exhaustively scans all
cross-source pairs of a MarketGroup's quotes. -/
def detectMiddles (quotes : List Quote) : List MiddleOpportunity :=
  (allPairs quotes).filterMap middlePairCheck

/-- Modelled from the spec: scanning one MarketGroup — the Freshness Guard
filters out stale members first, then the minimum-sources guard suppresses
all output for a group with fewer than `minSourcesPerMarket` fresh sources,
then the two detectors scan the fresh quotes. -/
def scanGroup (cfg : Config) (now : ℤ) (group : List Quote) :
    List ArbitrageOpportunity × List MiddleOpportunity :=
  if (distinctSources (group.filter (isFresh cfg now))).length < cfg.minSourcesPerMarket
  then ([], [])
  else (detectArbitrage cfg.arbitrageSafetyMargin (group.filter (isFresh cfg now)),
        detectMiddles (group.filter (isFresh cfg now)))

/-- Modelled from the spec: MarketGroups are keyed by (event id, market
kind). -/
def marketKey (q : Quote) : String × MarketKind :=
  (q.eventId, q.marketKind)

/-- The distinct MarketGroup keys present in a snapshot. -/
def groupKeys (snapshot : List Quote) : List (String × MarketKind) :=
  (snapshot.map marketKey).dedup

/-- Modelled from the spec: the Matcher assigns each Quote to the
MarketGroup of its (event id, market kind) key. -/
def groupFor (snapshot : List Quote) (k : String × MarketKind) : List Quote :=
  snapshot.filter (fun q => marketKey q = k)

/-- Modelled from the spec: the scanning stage — every MarketGroup of the
snapshot is scanned independently and the candidates are concatenated. -/
def runScan (cfg : Config) (now : ℤ) (snapshot : List Quote) :
    List ArbitrageOpportunity × List MiddleOpportunity :=
  let groups := (groupKeys snapshot).map (groupFor snapshot)
  ((groups.map (fun g => (scanGroup cfg now g).1)).flatten,
   (groups.map (fun g => (scanGroup cfg now g).2)).flatten)

/-- Stable insertion of one element into a list sorted by `le`. -/
def insertRanked (le : α → α → Bool) (x : α) : List α → List α
  | [] => [x]
  | y :: ys => if le x y then x :: y :: ys else y :: insertRanked le x ys

/-- Deterministic insertion sort by `le`. -/
def sortRanked (le : α → α → Bool) : List α → List α
  | [] => []
  | x :: xs => insertRanked le x (sortRanked le xs)

/-- Modelled from the spec: ranking order for arbitrage — guaranteed return
rate, descending. -/
def arbBefore (a b : ArbitrageOpportunity) : Bool :=
  b.guaranteedReturnRate ≤ a.guaranteedReturnRate

/-- Modelled from the spec: ranking order for middles — the model ranks by
worst-case loss rate ascending (lower vig cost ranks first), the
deterministic proxy for edge-ratio descending. -/
def midBefore (a b : MiddleOpportunity) : Bool :=
  a.worstCaseLossRate ≤ b.worstCaseLossRate

/-- Modelled from the spec: the Ranker orders each opportunity list. -/
def rankAll (r : List ArbitrageOpportunity × List MiddleOpportunity) :
    List ArbitrageOpportunity × List MiddleOpportunity :=
  (sortRanked arbBefore r.1, sortRanked midBefore r.2)

/-- Modelled from the spec: the engine state visible to readers is the
published opportunity set, fully replaced on each cycle. -/
structure EngineState where
  published : List ArbitrageOpportunity × List MiddleOpportunity
deriving DecidableEq, Repr

/-- Modelled from the spec: one scan cycle Matching → Scanning → Ranking →
Published, computed from a frozen snapshot; `Published` atomically replaces
the prior set. -/
def runCycle (cfg : Config) (now : ℤ) (snapshot : List Quote)
    (_st : EngineState) : EngineState :=
  { published := rankAll (runScan cfg now snapshot) }

/-- The documented example: Jacksonville moneyline +110 at DraftKings. -/
def jaxQuote : Quote :=
  { source := "draftkings", eventId := "buf-jax", marketKind := MarketKind.moneyline
    side := "home", line := none, price := 110, observedAt := 0 }

/-- The documented example: Buffalo moneyline +105 at MyBookie. -/
def bufQuote : Quote :=
  { source := "mybookie", eventId := "buf-jax", marketKind := MarketKind.moneyline
    side := "away", line := none, price := 105, observedAt := 0 }

/-- The documented moneyline MarketGroup: Jacksonville +110 / Buffalo +105. -/
def exampleMoneylineGroup : List Quote := [jaxQuote, bufQuote]

/-- The arbitrage opportunity computed on the documented moneyline group:
combined implied probability 100/210 + 100/205 = 830/861. -/
def exampleArbOpp : ArbitrageOpportunity :=
  { legs := [jaxQuote, bufQuote]
    combinedImpliedProbability := 830 / 861
    guaranteedReturnRate := 31 / 830 }

/-- The documented example: Over 45.5 at -115 (DraftKings). -/
def overQuote : Quote :=
  { source := "draftkings", eventId := "buf-jax", marketKind := MarketKind.total
    side := "over", line := some (91 / 2), price := -115, observedAt := 0 }

/-- The documented example: Under 51 at -105 (Bovada). -/
def underQuote : Quote :=
  { source := "bovada", eventId := "buf-jax", marketKind := MarketKind.total
    side := "under", line := some 51, price := -105, observedAt := 0 }

/-- The documented totals MarketGroup: Over 45.5 (-115) / Under 51 (-105). -/
def exampleTotalsGroup : List Quote := [overQuote, underQuote]

/-- The middle opportunity computed on the documented totals group. -/
def exampleMiddleOpp : MiddleOpportunity :=
  { legs := [overQuote, underQuote]
    windowLow := 46
    windowHigh := 50
    worstCaseLossRate := 23 / 43 + 21 / 41 - 1 }

/-- A quote far past the staleness threshold at scan time 100. -/
def staleQuote : Quote :=
  { source := "stale-book", eventId := "buf-jax", marketKind := MarketKind.moneyline
    side := "home", line := none, price := 500, observedAt := -300 }

end Engine

namespace WebCrypto

/-!
Shallow embedding of `src/web/lib/crypto.ts`.  Byte buffers are lists of
naturals below 256; JavaScript strings are lists of characters.  The
AES-256-GCM primitive reached through node's `createCipheriv` /
`createDecipheriv` (with the fixed derived key) is abstracted as a
`GCMCipher`: an encryption map, an auth-tag map and a decryption map that
inverts them, with ciphertext and tag made of bytes.  What the file itself
contributes — the hex encoding, the `iv:tag:ciphertext` layout and the
three-part check in `decrypt` — is embedded literally.
-/

/-- Lowercase hex digit of a value below 16, as produced by
`Buffer.toString('hex')`. -/
def hexDigit (n : ℕ) : Char :=
  if n < 10 then Char.ofNat (48 + n) else Char.ofNat (87 + n)

/-- Hex encoding of a byte buffer (`Buffer.toString('hex')`): two lowercase
hex digits per byte. -/
def hexEncode : List ℕ → List Char
  | [] => []
  | b :: bs => hexDigit (b / 16) :: hexDigit (b % 16) :: hexEncode bs

/-- Value of one hex digit, upper or lower case (`Buffer.from(_, 'hex')`). -/
def hexDigitVal (c : Char) : Option ℕ :=
  if 48 ≤ c.toNat ∧ c.toNat ≤ 57 then some (c.toNat - 48)
  else if 97 ≤ c.toNat ∧ c.toNat ≤ 102 then some (c.toNat - 87)
  else if 65 ≤ c.toNat ∧ c.toNat ≤ 70 then some (c.toNat - 55)
  else none

/-- Hex decoding of a character list back to a byte buffer. -/
def hexDecode : List Char → Option (List ℕ)
  | [] => some []
  | [_] => none
  | c1 :: c2 :: rest =>
    match hexDigitVal c1, hexDigitVal c2, hexDecode rest with
    | some hi, some lo, some bs => some ((16 * hi + lo) :: bs)
    | _, _, _ => none

/-- JavaScript `s.split(':')` on a character list: the list of maximal
colon-free segments, with empty segments kept. -/
def splitOnColon : List Char → List (List Char)
  | [] => [[]]
  | c :: rest =>
    if c = ':' then [] :: splitOnColon rest
    else
      match splitOnColon rest with
      | [] => [[c]]
      | p :: ps => (c :: p) :: ps

/-- The AES-256-GCM primitive with the derived key fixed, abstracted: `enc`
maps IV and plaintext to ciphertext, `tagOf` to the auth tag, and `dec`
authenticates and inverts them.  Ciphertext and tag are byte buffers. -/
structure GCMCipher where
  enc : List ℕ → List ℕ → List ℕ
  tagOf : List ℕ → List ℕ → List ℕ
  dec : List ℕ → List ℕ → List ℕ → Option (List ℕ)
  enc_bytes : ∀ iv m, (∀ b ∈ m, b < 256) → ∀ b ∈ enc iv m, b < 256
  tagOf_bytes : ∀ iv m, (∀ b ∈ m, b < 256) → ∀ b ∈ tagOf iv m, b < 256
  dec_enc : ∀ iv m, dec iv (tagOf iv m) (enc iv m) = some m

/-- Function encrypt from `src/web/lib/crypto.ts`: cipher the plaintext under a
random IV (the IV is a parameter here, making the randomness explicit) and
return the string `iv:tag:ciphertext` in hex. -/
def encrypt (C : GCMCipher) (iv plaintext : List ℕ) : List Char :=
  hexEncode iv ++
    (':' :: (hexEncode (C.tagOf iv plaintext) ++
      (':' :: hexEncode (C.enc iv plaintext))))

/-- Function decrypt from `src/web/lib/crypto.ts`: split on `:`, reject anything
but exactly three parts, hex-decode the parts, then authenticate and
decipher. -/
def decrypt (C : GCMCipher) (s : List Char) : Except String (List ℕ) :=
  match splitOnColon s with
  | [ivHex, tagHex, ctHex] =>
    match hexDecode ivHex, hexDecode tagHex, hexDecode ctHex with
    | some iv, some tg, some ct =>
      match C.dec iv tg ct with
      | some m => Except.ok m
      | none => Except.error "Unable to authenticate data"
    | _, _, _ => Except.error "Invalid hex data"
  | _ => Except.error "Invalid encrypted value format"

/-- A concrete `GCMCipher` witness instance: identity encryption with an
empty tag. -/
def identityCipher : GCMCipher where
  enc := fun _ m => m
  tagOf := fun _ _ => []
  dec := fun _ _ c => some c
  enc_bytes := fun _ _ h => h
  tagOf_bytes := fun _ _ _ b hb => by simp at hb
  dec_enc := fun _ _ => rfl

/-- Function maskApiKey from `src/web/lib/crypto.ts`: keys of length ≤ 8 become
`****`; longer keys show the first 4 and last 4 characters around `...`. -/
def maskApiKey (key : List Char) : List Char :=
  if key.length ≤ 8 then "****".toList
  else key.take 4 ++ "...".toList ++ key.drop (key.length - 4)

end WebCrypto

namespace Invite

/-!
Shallow embedding of the invite-code validation route
(`src/unnamed/part_010`) and of the invite checks in the signup branch of
`authorize` (`src/web/lib/api.ts`).  The prisma lookup is a parameter
mapping a normalized code to its stored row; `now` is the clock.
-/

/-- An ASCII whitespace test standing for what `String.prototype.trim`
strips on the invite codes in play. -/
def isSpaceChar (c : Char) : Bool :=
  c == ' ' || c == '\t' || c == '\n' || c == '\r'

/-- JavaScript `s.trim()` on a character list. -/
def trimChars (s : List Char) : List Char :=
  ((s.dropWhile isSpaceChar).reverse.dropWhile isSpaceChar).reverse

/-- ASCII `toUpperCase` on one character. -/
def upperChar (c : Char) : Char :=
  if 97 ≤ c.toNat ∧ c.toNat ≤ 122 then Char.ofNat (c.toNat - 32) else c

/-- The normalization `code.trim().toUpperCase()`, the normalization both code paths apply. -/
def normalizeCode (s : List Char) : List Char :=
  (trimChars s).map upperChar

/-- The stored invite-code row (prisma `inviteCode` model fields used by
the checks). -/
structure InviteCode where
  code : List Char
  expiresAt : Option ℤ
  useCount : ℕ
  maxUses : ℕ
deriving DecidableEq, Repr

/-- The check `inviteCode.expiresAt && new Date() > inviteCode.expiresAt`. -/
def isExpired (ic : InviteCode) (now : ℤ) : Bool :=
  match ic.expiresAt with
  | some e => e < now
  | none => false

/-- The JSON body of the validation endpoint's response: `valid:false` with
a reason, or `valid:true` with the normalized code. -/
inductive ValidateResult where
  | invalid (reason : List Char)
  | valid (code : List Char)
deriving DecidableEq, Repr

/-- The POST handler of `src/unnamed/part_010`: reject a missing or empty
code, look up the normalized code, reject unknown, expired or exhausted
codes, otherwise answer `valid:true` with the normalized code. -/
def validateInvite (lookup : List Char → Option InviteCode) (now : ℤ)
    (code : Option (List Char)) : ValidateResult :=
  match code with
  | none => ValidateResult.invalid "Invite code is required".toList
  | some c =>
    if c = [] then ValidateResult.invalid "Invite code is required".toList
    else
      match lookup (normalizeCode c) with
      | none => ValidateResult.invalid "Invalid invite code".toList
      | some ic =>
        if isExpired ic now then
          ValidateResult.invalid "This invite code has expired".toList
        else if ic.maxUses ≤ ic.useCount then
          ValidateResult.invalid "This invite code has reached its usage limit".toList
        else ValidateResult.valid (normalizeCode c)

/-- The invite checks of the signup branch of `authorize` in
`src/web/lib/api.ts`, up to the point where the user is created: same
normalization, same expiry and usage-limit checks, errors thrown as
`Except.error`. -/
def signupInviteCheck (lookup : List Char → Option InviteCode) (now : ℤ)
    (inviteCode : Option (List Char)) : Except (List Char) (List Char) :=
  match inviteCode with
  | none => Except.error "Invite code required to create an account".toList
  | some c =>
    if c = [] then Except.error "Invite code required to create an account".toList
    else
      match lookup (normalizeCode c) with
      | none => Except.error "Invalid invite code".toList
      | some ic =>
        if isExpired ic now then
          Except.error "This invite code has expired".toList
        else if ic.maxUses ≤ ic.useCount then
          Except.error "This invite code has reached its usage limit".toList
        else Except.ok (normalizeCode c)

/-- A concrete stored invite code for witnesses: expires at 100, used 2 of
5 times. -/
def demoInvite : InviteCode :=
  { code := "ABC123".toList, expiresAt := some 100, useCount := 2, maxUses := 5 }

/-- A concrete one-row store for witnesses. -/
def demoLookup (s : List Char) : Option InviteCode :=
  if s = "ABC123".toList then some demoInvite else none

end Invite

namespace Engine

/-- C1: for every valid American-odds price the implied-probability function
returns `100/(price+100)` for positive prices and `-price/(-price+100)` for
negative prices, and the returned value lies strictly between 0 and 1. -/
theorem impliedProbability_formula_and_range :
    ∀ price : ℤ, (99 ≤ price ∨ price ≤ -99) →
      ∃ p : ℚ, impliedProbability price = some p ∧
        (0 < price → p = 100 / ((price : ℚ) + 100)) ∧
        (price < 0 → p = -(price : ℚ) / (-(price : ℚ) + 100)) ∧
        0 < p ∧ p < 1 := by
  intro price h
  have hdom : ¬ (price = 0 ∨ (-99 < price ∧ price < 99)) := by omega
  rcases h with h | h
  · have hpos : 0 < price := by omega
    refine ⟨100 / ((price : ℚ) + 100), ?_, ?_, ?_, ?_, ?_⟩
    · simp [impliedProbability, hdom, hpos]
    · intro _; rfl
    · intro hneg; omega
    · apply div_pos (by norm_num)
      have : (0 : ℚ) < (price : ℚ) := by exact_mod_cast hpos
      linarith
    · rw [div_lt_one]
      · have : (0 : ℚ) < (price : ℚ) := by exact_mod_cast hpos
        linarith
      · have : (0 : ℚ) < (price : ℚ) := by exact_mod_cast hpos
        linarith
  · have hneg : price < 0 := by omega
    have hnp : ¬ (0 < price) := by omega
    have hcast : (99 : ℚ) ≤ -(price : ℚ) := by
      have : (price : ℚ) ≤ -99 := by exact_mod_cast h
      linarith
    refine ⟨-(price : ℚ) / (-(price : ℚ) + 100), ?_, ?_, ?_, ?_, ?_⟩
    · simp [impliedProbability, hdom, hnp]
    · intro hpos; omega
    · intro _; rfl
    · apply div_pos (by linarith) (by linarith)
    · rw [div_lt_one (by linarith)]
      linarith

/-- Witness for C1 at the concrete price +110. -/
theorem impliedProbability_formula_and_range_witness :
    ∃ p : ℚ, impliedProbability 110 = some p ∧
      (0 < (110 : ℤ) → p = 100 / (((110 : ℤ) : ℚ) + 100)) ∧
      ((110 : ℤ) < 0 → p = -((110 : ℤ) : ℚ) / (-((110 : ℤ) : ℚ) + 100)) ∧
      0 < p ∧ p < 1 :=
  impliedProbability_formula_and_range 110 (Or.inl (by decide))

theorem mem_allPairs {l : List α} {pr : α × α} (h : pr ∈ allPairs l) :
    pr.1 ∈ l ∧ pr.2 ∈ l := by
  induction l with
  | nil => simp [allPairs] at h
  | cons x xs ih =>
    rw [allPairs, List.mem_append] at h
    rcases h with h | h
    · rw [List.mem_map] at h
      obtain ⟨y, hy, hpr⟩ := h
      subst hpr
      exact ⟨List.mem_cons_self _ _, List.mem_cons_of_mem _ hy⟩
    · obtain ⟨h1, h2⟩ := ih h
      exact ⟨List.mem_cons_of_mem _ h1, List.mem_cons_of_mem _ h2⟩

theorem arbPairCheck_eq_some_iff {m : ℚ} {q1 q2 : Quote} {opp : ArbitrageOpportunity} :
    arbPairCheck m (q1, q2) = some opp ↔
      ∃ p1 p2, impliedProbability q1.price = some p1 ∧
        impliedProbability q2.price = some p2 ∧
        q1.source ≠ q2.source ∧ q1.side ≠ q2.side ∧ p1 + p2 < 1 - m ∧
        opp = { legs := [q1, q2]
                combinedImpliedProbability := p1 + p2
                guaranteedReturnRate := 1 / (p1 + p2) - 1 } := by
  unfold arbPairCheck
  cases h1 : impliedProbability q1.price with
  | none => simp [h1]
  | some p1 =>
    cases h2 : impliedProbability q2.price with
    | none => simp [h2]
    | some p2 =>
      dsimp only
      by_cases hc : q1.source ≠ q2.source ∧ q1.side ≠ q2.side ∧ p1 + p2 < 1 - m
      · rw [if_pos hc]
        constructor
        · intro h
          injection h with h
          exact ⟨p1, p2, rfl, rfl, hc.1, hc.2.1, hc.2.2, h.symm⟩
        · rintro ⟨a, b, ha, hb, -, -, -, rfl⟩
          injection ha with ha
          injection hb with hb
          subst ha
          subst hb
          rfl
      · rw [if_neg hc]
        constructor
        · intro h
          cases h
        · rintro ⟨a, b, ha, hb, hs, hside, hlt, -⟩
          injection ha with ha
          injection hb with hb
          subst ha
          subst hb
          exact absurd ⟨hs, hside, hlt⟩ hc

theorem scanGroup_of_enough_sources {cfg : Config} {now : ℤ} {g : List Quote}
    (h : cfg.minSourcesPerMarket ≤ (distinctSources (g.filter (isFresh cfg now))).length) :
    scanGroup cfg now g =
      (detectArbitrage cfg.arbitrageSafetyMargin (g.filter (isFresh cfg now)),
       detectMiddles (g.filter (isFresh cfg now))) := by
  rw [scanGroup]
  exact if_neg (not_lt.mpr h)

theorem mem_detectArbitrage_iff {m : ℚ} {l : List Quote} {q1 q2 : Quote}
    (hmem : (q1, q2) ∈ allPairs l) :
    (∃ opp ∈ detectArbitrage m l, opp.legs = [q1, q2]) ↔
      (q1.source ≠ q2.source ∧ q1.side ≠ q2.side ∧
        ∃ p1 p2, impliedProbability q1.price = some p1 ∧
          impliedProbability q2.price = some p2 ∧ p1 + p2 < 1 - m) := by
  constructor
  · rintro ⟨opp, hopp, hlegs⟩
    rw [detectArbitrage, List.mem_filterMap] at hopp
    obtain ⟨⟨a, b⟩, _, hchk⟩ := hopp
    rw [arbPairCheck_eq_some_iff] at hchk
    obtain ⟨p1, p2, hp1, hp2, hs, hside, hlt, rfl⟩ := hchk
    simp only [List.cons.injEq, and_true] at hlegs
    obtain ⟨rfl, rfl, -⟩ := hlegs
    exact ⟨hs, hside, p1, p2, hp1, hp2, hlt⟩
  · rintro ⟨hs, hside, p1, p2, hp1, hp2, hlt⟩
    refine ⟨{ legs := [q1, q2]
              combinedImpliedProbability := p1 + p2
              guaranteedReturnRate := 1 / (p1 + p2) - 1 }, ?_, rfl⟩
    rw [detectArbitrage, List.mem_filterMap]
    exact ⟨(q1, q2), hmem,
      arbPairCheck_eq_some_iff.mpr ⟨p1, p2, hp1, hp2, hs, hside, hlt, rfl⟩⟩

/-- C2: with the default safety margin being 0.005, a MarketGroup with at
least `minSourcesPerMarket` fresh sources yields an arbitrage opportunity
on a cross-source pair of fresh quotes on mutually exclusive sides exactly
when the sum of the two implied probabilities is strictly below 1 minus
the safety margin. -/
theorem arbitrage_iff_sum_below_margin :
    defaultConfig.arbitrageSafetyMargin = 5 / 1000 ∧
    ∀ (cfg : Config) (now : ℤ) (g : List Quote) (q1 q2 : Quote),
      cfg.minSourcesPerMarket ≤ (distinctSources (g.filter (isFresh cfg now))).length →
      (q1, q2) ∈ allPairs (g.filter (isFresh cfg now)) →
      ((∃ opp ∈ (scanGroup cfg now g).1, opp.legs = [q1, q2]) ↔
        (q1.source ≠ q2.source ∧ q1.side ≠ q2.side ∧
          ∃ p1 p2, impliedProbability q1.price = some p1 ∧
            impliedProbability q2.price = some p2 ∧
            p1 + p2 < 1 - cfg.arbitrageSafetyMargin)) := by
  refine ⟨rfl, ?_⟩
  intro cfg now g q1 q2 hsrc hmem
  rw [scanGroup_of_enough_sources hsrc]
  exact mem_detectArbitrage_iff hmem

/-- Witness for C2 on the documented Jacksonville/Buffalo group. -/
theorem arbitrage_iff_sum_below_margin_witness :
    ∃ opp ∈ (scanGroup defaultConfig 0 exampleMoneylineGroup).1,
      opp.legs = [jaxQuote, bufQuote] :=
  (arbitrage_iff_sum_below_margin.2 defaultConfig 0 exampleMoneylineGroup jaxQuote bufQuote
      (by decide) (by decide)).mpr
    ⟨by decide, by decide, 10 / 21, 20 / 41,
      by norm_num [impliedProbability, jaxQuote],
      by norm_num [impliedProbability, bufQuote],
      by norm_num [defaultConfig]⟩

theorem detectArbitrage_pair (m : ℚ) (a b : Quote) :
    detectArbitrage m [a, b] = (arbPairCheck m (a, b)).toList := by
  rw [detectArbitrage, allPairs, allPairs, allPairs]
  cases h : arbPairCheck m (a, b) <;> simp [List.filterMap, h]

theorem detectMiddles_pair (a b : Quote) :
    detectMiddles [a, b] = (middlePairCheck (a, b)).toList := by
  rw [detectMiddles, allPairs, allPairs, allPairs]
  cases h : middlePairCheck (a, b) <;> simp [List.filterMap, h]

theorem arbPairCheck_example :
    arbPairCheck defaultConfig.arbitrageSafetyMargin (jaxQuote, bufQuote) =
      some exampleArbOpp := by
  rw [arbPairCheck_eq_some_iff]
  refine ⟨10 / 21, 20 / 41, ?_, ?_, by decide, by decide, ?_, ?_⟩
  · norm_num [impliedProbability, jaxQuote]
  · norm_num [impliedProbability, bufQuote]
  · norm_num [defaultConfig]
  · rw [exampleArbOpp]
    norm_num

/-- C5: on the documented group — Jacksonville +110 at one source, Buffalo
+105 at another — the detector reports exactly one arbitrage opportunity;
its combined implied probability 830/861 is strictly below 1 and its
guaranteed return rate 31/830 is strictly positive. -/
theorem jaguars_bills_arbitrage :
    (scanGroup defaultConfig 0 exampleMoneylineGroup).1 = [exampleArbOpp] ∧
    exampleArbOpp.legs = [jaxQuote, bufQuote] ∧
    exampleArbOpp.combinedImpliedProbability = 830 / 861 ∧
    exampleArbOpp.combinedImpliedProbability < 1 ∧
    0 < exampleArbOpp.guaranteedReturnRate := by
  have hchk := arbPairCheck_example
  refine ⟨?_, rfl, rfl, by norm_num [exampleArbOpp], by norm_num [exampleArbOpp]⟩
  have hf : exampleMoneylineGroup.filter (isFresh defaultConfig 0) = exampleMoneylineGroup := by
    decide
  rw [scanGroup_of_enough_sources (by decide)]
  dsimp only
  rw [hf, exampleMoneylineGroup, detectArbitrage_pair, hchk]
  rfl

/-- C6: on the documented group — Over 45.5 at -115 on one source, Under 51
at -105 on another — the middle detector reports exactly one middle
opportunity; its window is [46, 50] and its worst-case loss rate is the
two legs' combined vig 23/43 + 21/41 - 1, a function of the implied
probabilities only. -/
theorem golden_middle_totals :
    (scanGroup defaultConfig 0 exampleTotalsGroup).2 = [exampleMiddleOpp] ∧
    exampleMiddleOpp.legs = [overQuote, underQuote] ∧
    exampleMiddleOpp.windowLow = 46 ∧
    exampleMiddleOpp.windowHigh = 50 ∧
    impliedProbability overQuote.price = some (23 / 43) ∧
    impliedProbability underQuote.price = some (21 / 41) ∧
    exampleMiddleOpp.worstCaseLossRate = 23 / 43 + 21 / 41 - 1 := by
  have hover : impliedProbability overQuote.price = some (23 / 43) := by
    norm_num [impliedProbability, overQuote]
  have hunder : impliedProbability underQuote.price = some (21 / 41) := by
    norm_num [impliedProbability, underQuote]
  have hchk : middlePairCheck (overQuote, underQuote) = some exampleMiddleOpp := by
    rw [middlePairCheck]
    rw [if_pos (by decide), if_pos (by decide)]
    rw [middleOriented]
    rw [show overQuote.line = some (91 / 2 : ℚ) from rfl,
        show underQuote.line = some (51 : ℚ) from rfl, hover, hunder]
    dsimp only
    rw [if_pos (by norm_num)]
    rw [exampleMiddleOpp]
    norm_num
    constructor
    · have h45 : ((91 : ℚ) / 2).floor = 45 := by
        show ⌊(91 : ℚ) / 2⌋ = 45
        rw [Int.floor_eq_iff]
        norm_num
      rw [h45]
      decide
    · rfl
  refine ⟨?_, rfl, rfl, rfl, hover, hunder, rfl⟩
  have hf : exampleTotalsGroup.filter (isFresh defaultConfig 0) = exampleTotalsGroup := by
    rw [exampleTotalsGroup]
    rw [List.filter_cons_of_pos (by decide), List.filter_cons_of_pos (by decide),
      List.filter_nil]
  rw [scanGroup_of_enough_sources (by decide)]
  dsimp only
  rw [hf, exampleTotalsGroup, detectMiddles_pair, hchk]
  rfl

/-- C3: a MarketGroup whose fresh quotes span fewer than
`minSourcesPerMarket` distinct sources yields no opportunity of either
kind; in particular, under the default configuration a group with exactly
one fresh quote yields nothing, whatever its prices. -/
theorem min_sources_guard :
    (∀ (cfg : Config) (now : ℤ) (g : List Quote),
        (distinctSources (g.filter (isFresh cfg now))).length < cfg.minSourcesPerMarket →
        scanGroup cfg now g = ([], [])) ∧
    (∀ (now : ℤ) (g : List Quote) (q : Quote),
        g.filter (isFresh defaultConfig now) = [q] →
        scanGroup defaultConfig now g = ([], [])) := by
  have guard : ∀ (cfg : Config) (now : ℤ) (g : List Quote),
      (distinctSources (g.filter (isFresh cfg now))).length < cfg.minSourcesPerMarket →
      scanGroup cfg now g = ([], []) := by
    intro cfg now g h
    rw [scanGroup]
    exact if_pos h
  refine ⟨guard, ?_⟩
  intro now g q h
  apply guard
  rw [h]
  simp [distinctSources, defaultConfig]

/-- Witness for C3: a single fresh quote yields no opportunity. -/
theorem min_sources_guard_witness :
    scanGroup defaultConfig 0 [jaxQuote] = ([], []) :=
  min_sources_guard.2 0 [jaxQuote] jaxQuote (by decide)

/-- C7: one scan cycle is a pure function of the frozen snapshot, so
running Matching → Scanning → Ranking twice on the same snapshot publishes
identical output both times (re-running the cycle does not change the
published set). -/
theorem pipeline_idempotent :
    ∀ (cfg : Config) (now : ℤ) (snapshot : List Quote) (st : EngineState),
      runCycle cfg now snapshot (runCycle cfg now snapshot st) =
        runCycle cfg now snapshot st := by
  intro cfg now snapshot st
  rfl

theorem mem_insertRanked {le : α → α → Bool} {x a : α} {l : List α} :
    a ∈ insertRanked le x l ↔ a = x ∨ a ∈ l := by
  induction l with
  | nil => simp [insertRanked]
  | cons y ys ih =>
    rw [insertRanked]
    split
    · simp
    · rw [List.mem_cons, ih, List.mem_cons]
      tauto

theorem mem_sortRanked {le : α → α → Bool} {a : α} {l : List α} :
    a ∈ sortRanked le l ↔ a ∈ l := by
  induction l with
  | nil => simp [sortRanked]
  | cons x xs ih =>
    rw [sortRanked, mem_insertRanked, ih, List.mem_cons]

theorem detectArbitrage_legs {m : ℚ} {l : List Quote} {opp : ArbitrageOpportunity}
    (h : opp ∈ detectArbitrage m l) : ∀ x ∈ opp.legs, x ∈ l := by
  rw [detectArbitrage, List.mem_filterMap] at h
  obtain ⟨⟨a, b⟩, hpr, hchk⟩ := h
  rw [arbPairCheck_eq_some_iff] at hchk
  obtain ⟨p1, p2, -, -, -, -, -, rfl⟩ := hchk
  obtain ⟨ha, hb⟩ := mem_allPairs hpr
  intro x hx
  simp only [List.mem_cons, List.not_mem_nil, or_false] at hx
  rcases hx with rfl | rfl
  · exact ha
  · exact hb

theorem middleOriented_legs {qo qu : Quote} {opp : MiddleOpportunity}
    (h : middleOriented qo qu = some opp) : opp.legs = [qo, qu] := by
  rw [middleOriented] at h
  split at h
  · split at h
    · injection h with h
      rw [← h]
    · cases h
  · cases h

theorem middlePairCheck_legs {pr : Quote × Quote} {opp : MiddleOpportunity}
    (h : middlePairCheck pr = some opp) :
    opp.legs = [pr.1, pr.2] ∨ opp.legs = [pr.2, pr.1] := by
  rw [middlePairCheck] at h
  split at h
  · split at h
    · exact Or.inl (middleOriented_legs h)
    · split at h
      · exact Or.inr (middleOriented_legs h)
      · cases h
  · cases h

theorem detectMiddles_legs {l : List Quote} {opp : MiddleOpportunity}
    (h : opp ∈ detectMiddles l) : ∀ x ∈ opp.legs, x ∈ l := by
  rw [detectMiddles, List.mem_filterMap] at h
  obtain ⟨⟨a, b⟩, hpr, hchk⟩ := h
  obtain ⟨ha, hb⟩ := mem_allPairs hpr
  intro x hx
  rcases middlePairCheck_legs hchk with hl | hl <;> rw [hl] at hx <;>
    simp only [List.mem_cons, List.not_mem_nil, or_false] at hx <;>
      rcases hx with rfl | rfl
  · exact ha
  · exact hb
  · exact hb
  · exact ha

theorem scanGroup_legs_fresh {cfg : Config} {now : ℤ} {g : List Quote} :
    (∀ opp ∈ (scanGroup cfg now g).1, ∀ x ∈ opp.legs, isFresh cfg now x = true) ∧
    (∀ opp ∈ (scanGroup cfg now g).2, ∀ x ∈ opp.legs, isFresh cfg now x = true) := by
  rw [scanGroup]
  split
  · simp
  · constructor
    · intro opp hopp x hx
      exact (List.mem_filter.mp (detectArbitrage_legs hopp x hx)).2
    · intro opp hopp x hx
      exact (List.mem_filter.mp (detectMiddles_legs hopp x hx)).2

theorem runScan_legs_fresh {cfg : Config} {now : ℤ} {snapshot : List Quote} :
    (∀ opp ∈ (runScan cfg now snapshot).1, ∀ x ∈ opp.legs, isFresh cfg now x = true) ∧
    (∀ opp ∈ (runScan cfg now snapshot).2, ∀ x ∈ opp.legs, isFresh cfg now x = true) := by
  constructor <;> intro opp hopp x hx
  · rw [runScan] at hopp
    dsimp only at hopp
    rw [List.mem_flatten] at hopp
    obtain ⟨sub, hsub, hopp⟩ := hopp
    rw [List.mem_map] at hsub
    obtain ⟨g, -, rfl⟩ := hsub
    exact scanGroup_legs_fresh.1 opp hopp x hx
  · rw [runScan] at hopp
    dsimp only at hopp
    rw [List.mem_flatten] at hopp
    obtain ⟨sub, hsub, hopp⟩ := hopp
    rw [List.mem_map] at hsub
    obtain ⟨g, -, rfl⟩ := hsub
    exact scanGroup_legs_fresh.2 opp hopp x hx

/-- C4: a Quote whose age at scan time exceeds `quoteStalenessSeconds`
never participates in any published opportunity of either kind — the
freshness filter removes it before the detectors run. -/
theorem stale_quote_never_published :
    ∀ (cfg : Config) (now : ℤ) (snapshot : List Quote) (st : EngineState) (q : Quote),
      cfg.quoteStalenessSeconds < now - q.observedAt →
      (∀ opp ∈ ((runCycle cfg now snapshot st).published).1, q ∉ opp.legs) ∧
      (∀ opp ∈ ((runCycle cfg now snapshot st).published).2, q ∉ opp.legs) := by
  intro cfg now snapshot st q hstale
  have hq : isFresh cfg now q = false := by
    rw [isFresh]
    simp only [decide_eq_false_iff_not]
    omega
  constructor <;> intro opp hopp hmem
  · rw [runCycle] at hopp
    dsimp only [rankAll] at hopp
    rw [mem_sortRanked] at hopp
    have hfr := runScan_legs_fresh.1 opp hopp q hmem
    rw [hfr] at hq
    cases hq
  · rw [runCycle] at hopp
    dsimp only [rankAll] at hopp
    rw [mem_sortRanked] at hopp
    have hfr := runScan_legs_fresh.2 opp hopp q hmem
    rw [hfr] at hq
    cases hq

/-- Witness for C4: in a cycle at time 100 over the documented moneyline
quotes plus a quote 400 seconds old, the published arbitrage excludes the
stale quote. -/
theorem stale_quote_never_published_witness :
    staleQuote ∉ exampleArbOpp.legs := by
  have hkeys : groupKeys [jaxQuote, bufQuote, staleQuote] =
      [("buf-jax", MarketKind.moneyline)] := by decide
  have hgrp : groupFor [jaxQuote, bufQuote, staleQuote] ("buf-jax", MarketKind.moneyline) =
      [jaxQuote, bufQuote, staleQuote] := by decide
  have hf : ([jaxQuote, bufQuote, staleQuote] : List Quote).filter (isFresh defaultConfig 100) =
      [jaxQuote, bufQuote] := by decide
  have hscan : (scanGroup defaultConfig 100 [jaxQuote, bufQuote, staleQuote]).1 =
      [exampleArbOpp] := by
    rw [scanGroup, hf, if_neg (by decide)]
    dsimp only
    rw [detectArbitrage_pair, arbPairCheck_example]
    rfl
  have hpub : ((runCycle defaultConfig 100 [jaxQuote, bufQuote, staleQuote]
      (EngineState.mk ([], []))).published).1 = [exampleArbOpp] := by
    rw [runCycle]
    dsimp only [rankAll]
    rw [runScan]
    dsimp only
    rw [hkeys]
    dsimp only [List.map]
    rw [hgrp, hscan]
    rfl
  exact (stale_quote_never_published defaultConfig 100 [jaxQuote, bufQuote, staleQuote]
      (EngineState.mk ([], [])) staleQuote (by decide)).1 exampleArbOpp
    (by rw [hpub]; exact List.mem_singleton_self _)

end Engine

namespace WebCrypto

theorem hexDigitVal_hexDigit : ∀ n < 16, hexDigitVal (hexDigit n) = some n := by decide

theorem hexDigit_ne_colon : ∀ n < 16, hexDigit n ≠ ':' := by decide

theorem hexDecode_hexEncode {bs : List ℕ} (h : ∀ b ∈ bs, b < 256) :
    hexDecode (hexEncode bs) = some bs := by
  induction bs with
  | nil => rfl
  | cons b bs ih =>
    have hb : b < 256 := h b (List.mem_cons_self _ _)
    have hbs : ∀ x ∈ bs, x < 256 := fun x hx => h x (List.mem_cons_of_mem _ hx)
    rw [hexEncode, hexDecode,
      hexDigitVal_hexDigit (b / 16) (by omega),
      hexDigitVal_hexDigit (b % 16) (by omega), ih hbs]
    have hbe : 16 * (b / 16) + b % 16 = b := by omega
    dsimp only
    rw [hbe]

theorem hexEncode_ne_colon {bs : List ℕ} (h : ∀ b ∈ bs, b < 256) :
    ∀ c ∈ hexEncode bs, c ≠ ':' := by
  induction bs with
  | nil =>
    intro c hc
    simp [hexEncode] at hc
  | cons b bs ih =>
    have hb : b < 256 := h b (List.mem_cons_self _ _)
    have hbs : ∀ x ∈ bs, x < 256 := fun x hx => h x (List.mem_cons_of_mem _ hx)
    intro c hc
    rw [hexEncode] at hc
    simp only [List.mem_cons] at hc
    rcases hc with rfl | rfl | hc
    · exact hexDigit_ne_colon (b / 16) (by omega)
    · exact hexDigit_ne_colon (b % 16) (by omega)
    · exact ih hbs c hc

theorem splitOnColon_of_no_colon {xs : List Char} (h : ∀ c ∈ xs, c ≠ ':') :
    splitOnColon xs = [xs] := by
  induction xs with
  | nil => rfl
  | cons c cs ih =>
    rw [splitOnColon, if_neg (h c (List.mem_cons_self _ _)),
      ih (fun x hx => h x (List.mem_cons_of_mem _ hx))]

theorem splitOnColon_append {xs : List Char} (ys : List Char) (h : ∀ c ∈ xs, c ≠ ':') :
    splitOnColon (xs ++ ':' :: ys) = xs :: splitOnColon ys := by
  induction xs with
  | nil =>
    rw [List.nil_append, splitOnColon, if_pos rfl]
  | cons c cs ih =>
    rw [List.cons_append, splitOnColon, if_neg (h c (List.mem_cons_self _ _)),
      ih (fun x hx => h x (List.mem_cons_of_mem _ hx))]

/-- C8: with the cipher correct as an AES-GCM primitive, `decrypt` inverts
`encrypt` on every plaintext (the IV and auth tag riding along inside the
`iv:tag:ciphertext` output), and `decrypt` fails on any input that does
not split into exactly three colon-separated parts. -/
theorem decrypt_encrypt_roundtrip :
    (∀ (C : GCMCipher) (iv m : List ℕ), (∀ b ∈ iv, b < 256) → (∀ b ∈ m, b < 256) →
        decrypt C (encrypt C iv m) = Except.ok m) ∧
    (∀ (C : GCMCipher) (s : List Char), (splitOnColon s).length ≠ 3 →
        decrypt C s = Except.error "Invalid encrypted value format") := by
  constructor
  · intro C iv m hiv hm
    have htag := C.tagOf_bytes iv m hm
    have henc := C.enc_bytes iv m hm
    have hsplit : splitOnColon (encrypt C iv m) =
        [hexEncode iv, hexEncode (C.tagOf iv m), hexEncode (C.enc iv m)] := by
      rw [encrypt, splitOnColon_append _ (hexEncode_ne_colon hiv),
        splitOnColon_append _ (hexEncode_ne_colon htag),
        splitOnColon_of_no_colon (hexEncode_ne_colon henc)]
    rw [decrypt, hsplit]
    dsimp only
    rw [hexDecode_hexEncode hiv, hexDecode_hexEncode htag, hexDecode_hexEncode henc]
    dsimp only
    rw [C.dec_enc]
  · intro C s h
    rw [decrypt]
    rcases hs : splitOnColon s with _ | ⟨a, _ | ⟨b, _ | ⟨c, _ | ⟨d, rest⟩⟩⟩⟩
    · rfl
    · rfl
    · rfl
    · rw [hs] at h
      simp at h
    · rfl

/-- Witness for C8: the identity cipher round-trips a concrete value. -/
theorem decrypt_encrypt_roundtrip_witness :
    decrypt identityCipher (encrypt identityCipher [7, 255] [72, 105]) =
      Except.ok [72, 105] :=
  decrypt_encrypt_roundtrip.1 identityCipher [7, 255] [72, 105] (by decide) (by decide)

/-- C10: `maskApiKey` returns `****` for every key of length at most 8, and
for longer keys its output depends only on the first 4 and last 4
characters, never on the middle of the key. -/
theorem maskApiKey_spec :
    (∀ k : List Char, k.length ≤ 8 → maskApiKey k = "****".toList) ∧
    (∀ k1 k2 : List Char, 8 < k1.length → 8 < k2.length →
        k1.take 4 = k2.take 4 → k1.drop (k1.length - 4) = k2.drop (k2.length - 4) →
        maskApiKey k1 = maskApiKey k2) := by
  constructor
  · intro k h
    rw [maskApiKey, if_pos h]
  · intro k1 k2 h1 h2 hpre hsuf
    rw [maskApiKey, maskApiKey, if_neg (by omega), if_neg (by omega), hpre, hsuf]

/-- Witness for C10: a short key masks to `****`, and two long keys that
differ only in the middle get the same mask. -/
theorem maskApiKey_spec_witness :
    maskApiKey "sk-12345".toList = "****".toList ∧
    maskApiKey "abcdMIDDLEwxyz".toList = maskApiKey "abcdOTHERwxyz".toList :=
  ⟨maskApiKey_spec.1 "sk-12345".toList (by decide),
   maskApiKey_spec.2 "abcdMIDDLEwxyz".toList "abcdOTHERwxyz".toList
     (by decide) (by decide) (by decide) (by decide)⟩

end WebCrypto

namespace Invite

/-- C9: for a submitted code whose normalization is found in the store, the
validation endpoint answers invalid whenever the stored row is expired or
has exhausted its uses, and otherwise answers valid with the trimmed,
upper-cased code; the signup path enforces exactly the same checks. -/
theorem invite_validation_checks :
    ∀ (lookup : List Char → Option InviteCode) (now : ℤ) (c : List Char) (ic : InviteCode),
      c ≠ [] → lookup (normalizeCode c) = some ic →
      ((isExpired ic now = true ∨ ic.maxUses ≤ ic.useCount) →
        (∃ r, validateInvite lookup now (some c) = ValidateResult.invalid r) ∧
        (∃ r, signupInviteCheck lookup now (some c) = Except.error r)) ∧
      ((isExpired ic now = false ∧ ic.useCount < ic.maxUses) →
        validateInvite lookup now (some c) = ValidateResult.valid (normalizeCode c) ∧
        signupInviteCheck lookup now (some c) = Except.ok (normalizeCode c)) := by
  intro lookup now c ic hc hlk
  have hv : validateInvite lookup now (some c) =
      (if isExpired ic now then
        ValidateResult.invalid "This invite code has expired".toList
      else if ic.maxUses ≤ ic.useCount then
        ValidateResult.invalid "This invite code has reached its usage limit".toList
      else ValidateResult.valid (normalizeCode c)) := by
    rw [validateInvite, if_neg hc, hlk]
  have hs : signupInviteCheck lookup now (some c) =
      (if isExpired ic now then
        Except.error "This invite code has expired".toList
      else if ic.maxUses ≤ ic.useCount then
        Except.error "This invite code has reached its usage limit".toList
      else Except.ok (normalizeCode c)) := by
    rw [signupInviteCheck, if_neg hc, hlk]
  constructor
  · intro hbad
    by_cases hexp : isExpired ic now = true
    · exact ⟨⟨_, by rw [hv, if_pos hexp]⟩, ⟨_, by rw [hs, if_pos hexp]⟩⟩
    · have huse : ic.maxUses ≤ ic.useCount := by
        rcases hbad with hb | hb
        · exact absurd hb hexp
        · exact hb
      exact ⟨⟨_, by rw [hv, if_neg hexp, if_pos huse]⟩,
             ⟨_, by rw [hs, if_neg hexp, if_pos huse]⟩⟩
  · rintro ⟨hexp, huse⟩
    have hexp' : ¬ (isExpired ic now = true) := by
      rw [hexp]
      exact Bool.false_ne_true
    constructor
    · rw [hv, if_neg hexp', if_neg (by omega)]
    · rw [hs, if_neg hexp', if_neg (by omega)]

/-- Witness for C9: the demo code, unexpired and under its usage limit,
validates and signs up with the normalized code. -/
theorem invite_validation_checks_witness :
    validateInvite demoLookup 50 (some "abc123".toList) =
      ValidateResult.valid (normalizeCode "abc123".toList) ∧
    signupInviteCheck demoLookup 50 (some "abc123".toList) =
      Except.ok (normalizeCode "abc123".toList) :=
  (invite_validation_checks demoLookup 50 "abc123".toList demoInvite
      (by decide) (by decide)).2 ⟨by decide, by decide⟩

end Invite
